import Mathlib

/-!
A shallow embedding, in Lean, of the tracklist parser and the
track-processing pipeline of `main.go` from the song-splitter repository.

Modelling conventions:

* Go `float64` time values are modelled as `Int`.  Every time value the
  program computes from a tracklist is an integer number of seconds
  (timestamps are weighted sums of `strconv.Atoi` results), `float64`
  arithmetic is exact on integers in the relevant range, and the only
  comparison the code performs on times (`>=` in `processTrack`) agrees
  with the `Int` comparison.  The total media duration, a `float64`
  obtained from `ffprobe`, is modelled as an arbitrary `Int` parameter.
* The two Go regular expressions
  `^\[(\d+:?\d*:\d+)\]\s(.+?)(?:\s\[(.+)\])?$`  (`lineRe`) and
  `^w/\s(.+?)(?:\s\[(.+)\])?$`  (`wRe`)
  are modelled by hand-rolled matchers (`lineMatch`, `wMatch`) that
  implement the same language and the same submatch choice.  Go `regexp`
  has leftmost, operator-preference submatch semantics, so the lazy group
  `(.+?)` takes the shortest prefix after which the greedy optional
  `(?:\s\[(.+)\])?$` (preferring presence) or the bare `$` succeeds, and
  inside the optional group the greedy `(.+)` extends to just before the
  final `]`.  `rlGo` below implements exactly this scan.  The timestamp
  group `\d+:?\d*:\d+` can only end where a `]` follows, so it always
  captures the maximal run of digits and colons after `[`, and that run
  must split on `:` into two nonempty digit fields, or three digit fields
  with the outer two nonempty (`tsShape`).  The metacharacter `.` in RE2
  excludes `\n`; lines delivered by `bufio.Scanner` never contain `\n`,
  so `.` is modelled as matching every character.
* File, process and signal I/O is outside the embedding: `parseTracklist`
  takes the list of scanned lines, `processTrack` takes an oracle telling
  whether the external `ffmpeg` invocation for a track succeeds, and the
  concurrent orchestrator's failure counter is modelled by counting the
  per-track failures (the Go counter is an atomic increment per failed
  job, so its final value is order-independent).
-/

set_option autoImplicit false

namespace SongSplitter

/-! ## Data model (`Track`, `AdditionalTrack` from `main.go`) -/

structure AdditionalTrack where
  artist : String
  title : String
  label : String
  deriving DecidableEq, Repr

structure Track where
  startTime : Int
  endTime : Int
  mainArtist : String
  mainTitle : String
  mainLabel : String
  additional : List AdditionalTrack
  outputFilename : String
  deriving DecidableEq, Repr

/-- Outcome of running a piece of Go code: a runtime panic (only ever
possible in `parseTimestamp`'s multiplier indexing), a Go `error`, or a
value. -/
inductive GoResult (α : Type) where
  | panicked : GoResult α
  | failed : String → GoResult α
  | ok : α → GoResult α
  deriving DecidableEq, Repr

def GoResult.map {α β : Type} (f : α → β) : GoResult α → GoResult β
  | .panicked => .panicked
  | .failed e => .failed e
  | .ok a => .ok (f a)

/-! ## Character and string primitives -/

def isDigitChar (c : Char) : Bool :=
  '0' ≤ c && c ≤ '9'

/-- The RE2 character class `\s`, namely `[\t\n\f\r ]`. -/
def isGoRegexSpace (c : Char) : Bool :=
  c = ' ' || c = '\t' || c = '\n' || c = '\x0c' || c = '\r'

/-- The ASCII part of Go's `unicode.IsSpace`, used by `strings.TrimSpace`. -/
def isGoSpace (c : Char) : Bool :=
  c = ' ' || c = '\t' || c = '\n' || c = '\x0b' || c = '\x0c' || c = '\r'

/-- Go `strings.TrimSpace` (tracklist lines are ASCII; the Unicode
space classes beyond ASCII are not modelled). -/
def goTrimSpace (s : String) : String :=
  ⟨((s.data.dropWhile isGoSpace).reverse.dropWhile isGoSpace).reverse⟩

def allDigits (l : List Char) : Bool :=
  l.all isDigitChar

/-- Value of a big-endian list of decimal digit characters. -/
def digitsVal (l : List Char) : Nat :=
  l.foldl (fun a c => a * 10 + (c.toNat - 48)) 0

/-- Go `strings.Split(s, ":")` on character lists (the separator is a
single character everywhere the program splits). -/
def splitOnChar (sep : Char) : List Char → List (List Char)
  | [] => [[]]
  | c :: cs =>
    if c = sep then
      [] :: splitOnChar sep cs
    else
      match splitOnChar sep cs with
      | [] => [[c]]
      | p :: ps => (c :: p) :: ps

/-- Go `strconv.Atoi`: an optional sign, then a nonempty digit string,
rejected when the value overflows a 64-bit `int`. -/
def goAtoi (l : List Char) : Option Int :=
  let signed : Int × List Char :=
    match l with
    | '-' :: r => (-1, r)
    | '+' :: r => (1, r)
    | _ => (1, l)
  if signed.2.isEmpty then none
  else if allDigits signed.2 then
    let v : Int := signed.1 * (digitsVal signed.2 : Int)
    if -9223372036854775808 ≤ v ∧ v ≤ 9223372036854775807 then some v else none
  else none

/-- Go `strings.HasPrefix(line, "w/")`. -/
def startsWithWSlash (l : List Char) : Bool :=
  match l with
  | 'w' :: '/' :: _ => true
  | _ => false

/-- Go `strings.HasSuffix`, on character lists. -/
def goEndsWith (l suf : List Char) : Bool :=
  suf.isSuffixOf l

def onStageChars : List Char :=
  ['O', 'n', ' ', 'S', 't', 'a', 'g', 'e']

/-! ## The two regular expressions of `parseTracklist` -/

/-- Language of the timestamp group `\d+:?\d*:\d+`: two nonempty digit
fields, or three digit fields whose outer two are nonempty (the middle
one may be empty, via `\d+:\d*:\d+` with `\d*` empty). -/
def tsShape (ts : List Char) : Bool :=
  match splitOnChar ':' ts with
  | [a, b] => !a.isEmpty && !b.isEmpty && allDigits a && allDigits b
  | [a, b, c] => !a.isEmpty && !c.isEmpty && allDigits a && allDigits b && allDigits c
  | _ => false

/-- Does `suf` match `\s\[(.+)\]$`?  If so, return the capture of the
greedy `(.+)`: everything between the opening `[` and the final
character, which must be `]`. -/
def labelTail (suf : List Char) : Option (List Char) :=
  match suf with
  | c :: '[' :: rest =>
    if isGoRegexSpace c = true ∧ rest.getLast? = some ']' ∧ 2 ≤ rest.length then
      some rest.dropLast
    else none
  | _ => none

/-- Submatch scan for `(.+?)(?:\s\[(.+)\])?$` against `acc.reverse ++ suf`:
the lazy `(.+?)` takes at least one character and then the shortest
extension after which the optional label group (preferring presence) or
the end of input succeeds.  Returns the captures of groups one and two,
the second being `[]` when the optional group is absent. -/
def rlGo (acc suf : List Char) : Option (List Char × List Char) :=
  match suf with
  | [] => if acc.isEmpty then none else some (acc.reverse, [])
  | c :: cs =>
    if acc.isEmpty then rlGo [c] cs
    else
      match labelTail (c :: cs) with
      | some lbl => some (acc.reverse, lbl)
      | none => rlGo (c :: acc) cs

/-- Matcher for `lineRe = ^\[(\d+:?\d*:\d+)\]\s(.+?)(?:\s\[(.+)\])?$`.
Returns the three submatches (timestamp, rest, label), the label being
`[]` when the optional group is absent. -/
def lineMatch (l : List Char) : Option (List Char × List Char × List Char) :=
  match l with
  | '[' :: cs =>
    let ts := cs.takeWhile fun c => isDigitChar c || c = ':'
    let afterTs := cs.dropWhile fun c => isDigitChar c || c = ':'
    if tsShape ts then
      match afterTs with
      | ']' :: c :: r =>
        if isGoRegexSpace c then
          match rlGo [] r with
          | some (m2, lbl) => some (ts, m2, lbl)
          | none => none
        else none
      | _ => none
    else none
  | _ => none

/-- Matcher for `wRe = ^w/\s(.+?)(?:\s\[(.+)\])?$`. -/
def wMatch (l : List Char) : Option (List Char × List Char) :=
  match l with
  | 'w' :: '/' :: c :: r => if isGoRegexSpace c then rlGo [] r else none
  | _ => none

/-! ## `parseTimestamp` and `parseArtistTitle` -/

def multipliers : List Int := [1, 60, 3600]

/-- The loop of `parseTimestamp`, over the colon-separated fields taken
right to left (`parts[len(parts)-1-i]`), with `i` indexing the fixed
three-element `multipliers` array; indexing it at `i ≥ 3` is a Go
runtime panic. -/
def tsLoop : List (List Char) → Nat → Int → GoResult Int
  | [], _, total => .ok total
  | p :: rest, i, total =>
    match goAtoi p with
    | none => .failed "strconv.Atoi: invalid syntax"
    | some v =>
      if h : i < multipliers.length then
        tsLoop rest (i + 1) (total + v * multipliers.get ⟨i, h⟩)
      else .panicked

/-- Go `parseTimestamp`. -/
def parseTimestamp (ts : String) : GoResult Int :=
  tsLoop (splitOnChar ':' ts.data).reverse 0 0

def sepDashChars : List Char := [' ', '-', ' ']

/-- Go `strings.SplitN(s, sep, 2)` restricted to the case the caller
uses: split at the first occurrence of `sep`, `none` when `sep` does not
occur (in which case `SplitN` returns a single part). -/
def splitOnFirst (sep : List Char) : List Char → Option (List Char × List Char)
  | [] => none
  | c :: cs =>
    if sep.isPrefixOf (c :: cs) then
      some ([], (c :: cs).drop sep.length)
    else
      match splitOnFirst sep cs with
      | some (a, b) => some (c :: a, b)
      | none => none

/-- Go `parseArtistTitle`. -/
def parseArtistTitle (s : List Char) : GoResult (List Char × List Char) :=
  match splitOnFirst sepDashChars s with
  | none => .failed ("invalid artist/title format: " ++ String.mk s)
  | some (a, t) => .ok (a, t)

/-! ## `parseTracklist` -/

/-- Loop state of `parseTracklist`: the accumulated `tracks` slice and
the `currentTrack` pointer (`none` models `nil`). -/
structure PState where
  tracks : List Track
  current : Option Track
  deriving DecidableEq, Repr

/-- One iteration of the scanner loop of `parseTracklist`, covering one
input line.  The branch order and the mutations mirror the Go source:
on a `lineRe` match the previously open track is appended *before* the
timestamp is parsed and before the `"On Stage"` suffix test, and the
`"On Stage"` `continue` leaves `currentTrack` untouched. -/
def parseLine (st : PState) (rawLine : String) : GoResult PState :=
  let l := (goTrimSpace rawLine).data
  if l.isEmpty then .ok st
  else
    match lineMatch l with
    | some (ts, restC, lbl) =>
      let tracks' := st.tracks ++ st.current.toList
      match parseTimestamp (String.mk ts) with
      | .panicked => .panicked
      | .failed e => .failed e
      | .ok start =>
        if goEndsWith restC onStageChars then .ok ⟨tracks', st.current⟩
        else
          match parseArtistTitle restC with
          | .panicked => .panicked
          | .failed e => .failed e
          | .ok (a, t) =>
            .ok ⟨tracks',
              some { startTime := start, endTime := 0,
                     mainArtist := String.mk a, mainTitle := String.mk t,
                     mainLabel := String.mk lbl, additional := [],
                     outputFilename := "" }⟩
    | none =>
      if startsWithWSlash l then
        match st.current with
        | none => .ok st
        | some cur =>
          match wMatch l with
          | none => .ok st
          | some (content, lbl) =>
            match parseArtistTitle content with
            | .panicked => .panicked
            | .failed e => .failed e
            | .ok (a, t) =>
              .ok ⟨st.tracks,
                some { cur with
                  additional := cur.additional ++
                    [{ artist := String.mk a, title := String.mk t,
                       label := String.mk lbl }] }⟩
      else .ok st

/-- The scanner loop of `parseTracklist` over the lines after the
header; at end of input the still-open track, if any, is appended. -/
def parseLines : List String → PState → GoResult (List Track)
  | [], st => .ok (st.tracks ++ st.current.toList)
  | line :: rest, st =>
    match parseLine st line with
    | .panicked => .panicked
    | .failed e => .failed e
    | .ok st' => parseLines rest st'

/-- Go `parseTracklist`, modelled on the list of lines the
`bufio.Scanner` delivers.  The first `Scan` consumes the header line
verbatim (an empty input yields the empty header, as `scanner.Text()`
is `""` when `Scan` fails). -/
def parseTracklist (input : List String) : GoResult (List Track × String) :=
  match input with
  | [] => (parseLines [] ⟨[], none⟩).map fun ts => (ts, "")
  | header :: rest => (parseLines rest ⟨[], none⟩).map fun ts => (ts, header)

/-! ## `calculateEndTimes` -/

/-- Go `calculateEndTimes`: each track but the last ends where the next
one starts; the last ends at the total media duration.  The Go loop
mutates only `EndTime` and reads only `StartTime` of the next element,
so the in-place update is the same as this recursion. -/
def calculateEndTimes : List Track → Int → List Track
  | [], _ => []
  | [t], d => [{ t with endTime := d }]
  | t :: t' :: rest, d =>
    { t with endTime := t'.startTime } :: calculateEndTimes (t' :: rest) d

/-! ## `sanitizeFilename` and `createFilenames` -/

def badChars : List Char := ['<', '>', ':', '"', '/', '\\', '|', '?', '*']

/-- Go `sanitizeFilename`: `strings.Map` returning `-1` (that is,
dropping the character) on every character of ``<>:"/\|?*``. -/
def sanitizeFilename (s : String) : String :=
  ⟨s.data.filterMap fun c => if c ∈ badChars then none else some c⟩

/-- One decimal digit character (callers only apply this to values
below ten; the `% 10` makes the output a digit on every input). -/
def digitChar (n : Nat) : Char :=
  match n % 10 with
  | 0 => '0' | 1 => '1' | 2 => '2' | 3 => '3' | 4 => '4'
  | 5 => '5' | 6 => '6' | 7 => '7' | 8 => '8' | _ => '9'

/-- Big-endian decimal digits of `n`, fuelled so that the kernel can
evaluate it (the fuel `n + 1` always suffices). -/
def natDigsAux : Nat → Nat → List Char
  | 0, _ => []
  | fuel + 1, n =>
    if n < 10 then [digitChar n]
    else natDigsAux fuel (n / 10) ++ [digitChar (n % 10)]

def natDigs (n : Nat) : List Char :=
  natDigsAux (n + 1) n

/-- Go `fmt.Sprintf("%02d", n)` for a nonnegative value: the decimal
digits, left-padded with `0` to a minimum width of two. -/
def fmt02dChars (n : Nat) : List Char :=
  if n < 10 then '0' :: natDigs n else natDigs n

def fmt02d (n : Nat) : String :=
  ⟨fmt02dChars n⟩

/-- The filename `createFilenames` assigns to the track at zero-based
index `i`: `fmt.Sprintf("output/%02d - %s - %s%s", i+1, ...)`. -/
def trackFilename (position : Nat) (artist title ext : String) : String :=
  "output/" ++ fmt02d position ++ " - " ++ sanitizeFilename artist ++ " - " ++
    sanitizeFilename title ++ ext

def createFilenamesAux (i : Nat) (ext : String) : List Track → List Track
  | [] => []
  | t :: rest =>
    { t with outputFilename := trackFilename (i + 1) t.mainArtist t.mainTitle ext } ::
      createFilenamesAux (i + 1) ext rest

/-- Go `createFilenames`. -/
def createFilenames (tracks : List Track) (ext : String) : List Track :=
  createFilenamesAux 0 ext tracks

/-! ## `processTrack` and the failure count of the orchestrator -/

inductive JobResult where
  | timeRangeError : JobResult
  | invocationError : JobResult
  | success : JobResult
  deriving DecidableEq, Repr

/-- Go `processTrack`, with the external `ffmpeg` invocation abstracted
by an oracle.  The returned `Bool` records whether the external process
was launched; the time-range validation precedes and prevents it. -/
def processTrack (ffmpegOk : Track → Bool) (t : Track) : JobResult × Bool :=
  if t.startTime ≥ t.endTime then (.timeRangeError, false)
  else if ffmpegOk t then (.success, true)
  else (.invocationError, true)

def isFailure : JobResult → Bool
  | .timeRangeError => true
  | .invocationError => true
  | .success => false

/-- Final value of the orchestrator's atomic `errCount` when no
cancellation occurs: one increment per track whose `processTrack`
returned an error, in whatever completion order. -/
def errCount (ffmpegOk : Track → Bool) (tracks : List Track) : Nat :=
  (tracks.filter fun t => isFailure (processTrack ffmpegOk t).1).length

/-! ## `buildTitle`, `buildComment`, `buildMetadata` -/

/-- Go `strings.Join`. -/
def goJoin (sep : String) : List String → String
  | [] => ""
  | [s] => s
  | s :: rest => s ++ sep ++ goJoin sep rest

/-- Go `buildTitle`: the main title, extended by `" / " + add.Title` for
each additional track in order. -/
def buildTitle (t : Track) : String :=
  t.additional.foldl (fun acc a => acc ++ " / " ++ a.title) t.mainTitle

/-- Go `buildComment`. -/
def buildComment (t : Track) : String :=
  "Additional tracks: " ++
    goJoin "; " (t.additional.map fun a => a.artist ++ " - " ++ a.title ++ " [" ++ a.label ++ "]")

/-- Go `buildMetadata`: the five always-present `-metadata` pairs, then
the publisher pair exactly when `MainLabel` is nonempty. -/
def buildMetadata (t : Track) (album : String) : List String :=
  (["-metadata", "title=" ++ buildTitle t,
    "-metadata", "artist=" ++ t.mainArtist,
    "-metadata", "album=" ++ album,
    "-metadata", "date=" ++ "2025",
    "-metadata", "comment=" ++ buildComment t]) ++
  (if t.mainLabel = "" then [] else ["-metadata", "publisher=" ++ t.mainLabel])

/-! ## Derived predicates and sample data used in the statements below -/

def GoResult.isOk {α : Type} : GoResult α → Bool
  | .ok _ => true
  | _ => false

/-- Does this input line open a new track in `parseTracklist`?  That is:
after trimming it matches `lineRe`, its timestamp converts, its rest is
not a stage announcement, and its rest splits as `artist - title`. -/
def opensTrack (line : String) : Bool :=
  match lineMatch (goTrimSpace line).data with
  | some (ts, restC, _) =>
    (parseTimestamp (String.mk ts)).isOk && !(goEndsWith restC onStageChars) &&
      (splitOnFirst sepDashChars restC).isSome
  | none => false

/-- A track as `parseTracklist` first builds it, with only the start
time filled in. -/
def startOnly (s : Int) : Track :=
  { startTime := s, endTime := 0, mainArtist := "", mainTitle := "",
    mainLabel := "", additional := [], outputFilename := "" }

def trackAB : Track :=
  { startTime := 0, endTime := 0, mainArtist := "A", mainTitle := "B",
    mainLabel := "", additional := [], outputFilename := "" }

def trackCD : Track :=
  { startTime := 20, endTime := 0, mainArtist := "C", mainTitle := "D",
    mainLabel := "", additional := [], outputFilename := "" }

/-- A tracklist whose second track-start line is a stage announcement. -/
def onStageInput : List String :=
  ["My Set", "[0:00] A - B", "[0:10] DJ Snake On Stage", "[0:20] C - D"]

/-- Replace a track's output filename (what the loop body of
`createFilenames` does to each slice element). -/
def Track.withName (t : Track) (name : String) : Track :=
  { t with outputFilename := name }

/-! ## Lemmas about `calculateEndTimes` -/

theorem calculateEndTimes_length (ts : List Track) (d : Int) :
    (calculateEndTimes ts d).length = ts.length := by
  induction ts with
  | nil => rfl
  | cons t rest ih =>
    cases rest with
    | nil => rfl
    | cons t' rest' =>
      simp only [calculateEndTimes, List.length_cons] at ih ⊢
      omega

theorem calculateEndTimes_get_lt (ts : List Track) (d : Int) :
    ∀ (i : Nat) (h : i + 1 < ts.length) (h' : i < (calculateEndTimes ts d).length),
      ((calculateEndTimes ts d).get ⟨i, h'⟩).endTime = (ts.get ⟨i + 1, h⟩).startTime := by
  induction ts with
  | nil => intro i h h'; simp at h
  | cons t rest ih =>
    cases rest with
    | nil => intro i h h'; simp at h
    | cons t' rest' =>
      intro i h h'
      cases i with
      | zero => rfl
      | succ j =>
        have hj : j + 1 < (t' :: rest').length := by
          simp only [List.length_cons] at h ⊢
          omega
        have hj' : j < (calculateEndTimes (t' :: rest') d).length := by
          rw [calculateEndTimes_length]
          simp only [List.length_cons] at h ⊢
          omega
        exact ih j hj hj'

theorem calculateEndTimes_get_last (ts : List Track) (d : Int) :
    ∀ (_ : ts ≠ []) (h' : ts.length - 1 < (calculateEndTimes ts d).length),
      ((calculateEndTimes ts d).get ⟨ts.length - 1, h'⟩).endTime = d := by
  induction ts with
  | nil => intro h _; exact absurd rfl h
  | cons t rest ih =>
    cases rest with
    | nil => intro _ _; rfl
    | cons t' rest' =>
      intro _ h'
      have h'' : (t' :: rest').length - 1 < (calculateEndTimes (t' :: rest') d).length := by
        rw [calculateEndTimes_length]
        simp
      exact ih (by simp) h''

/-! ## Lemmas about `errCount` -/

theorem errCount_append_cons (f : Track → Bool) (x : Track) (pre post : List Track) :
    errCount f (pre ++ x :: post) =
      errCount f pre + (if isFailure (processTrack f x).1 then 1 else 0) + errCount f post := by
  simp only [errCount, List.filter_append, List.filter_cons, List.length_append]
  by_cases hx : isFailure (processTrack f x).1
  · simp [hx]; omega
  · simp [hx]

/-! ## Claim C1 -/

/-- C1: the claim says a stage-announcement line is dropped with the
previously open track remaining open and appearing in the result exactly
once.  The code appends the open track to the result when the
stage-announcement line matches `lineRe`, but the `continue` taken after
the `"On Stage"` suffix test leaves `currentTrack` set, so the same
track is appended a second time at the next track-start line (or at end
of input): on this input the `A - B` track appears twice. -/
theorem c1_on_stage_duplicates_previous_track :
    parseTracklist onStageInput = .ok ([trackAB, trackAB, trackCD], "My Set") := by
  rfl

/-! ## Claim C5 -/

/-- C5: end-time resolution.  Every track but the last ends at the next
track's start time, the last track ends at the total duration, and start
times `[0, 30, 90]` with total duration `120` resolve to end times
`[30, 90, 120]`. -/
theorem c5_end_time_resolution :
    (∀ (ts : List Track) (d : Int) (i : Nat) (h : i + 1 < ts.length)
        (h' : i < (calculateEndTimes ts d).length),
        ((calculateEndTimes ts d).get ⟨i, h'⟩).endTime = (ts.get ⟨i + 1, h⟩).startTime)
    ∧ (∀ (ts : List Track) (d : Int) (_ : ts ≠ [])
        (h' : ts.length - 1 < (calculateEndTimes ts d).length),
        ((calculateEndTimes ts d).get ⟨ts.length - 1, h'⟩).endTime = d)
    ∧ (calculateEndTimes [startOnly 0, startOnly 30, startOnly 90] 120).map Track.endTime
        = [30, 90, 120] := by
  refine ⟨?_, ?_, rfl⟩
  · intro ts d i h h'
    exact calculateEndTimes_get_lt ts d i h h'
  · intro ts d h h'
    exact calculateEndTimes_get_last ts d h h'

/-- Witness for C5 at start times `[0, 30, 90]` and duration `120`. -/
theorem c5_end_time_resolution_witness :
    ((calculateEndTimes [startOnly 0, startOnly 30, startOnly 90] 120).get
        ⟨0, by decide⟩).endTime = 30 ∧
    ((calculateEndTimes [startOnly 0, startOnly 30, startOnly 90] 120).get
        ⟨2, by decide⟩).endTime = 120 :=
  ⟨(c5_end_time_resolution.1 [startOnly 0, startOnly 30, startOnly 90] 120 0
      (by decide) (by decide)).trans rfl,
   c5_end_time_resolution.2.1 [startOnly 0, startOnly 30, startOnly 90] 120
      (by decide) (by decide)⟩

/-! ## Claim C6 -/

/-- C6: timestamp conversion is the positional weighted sum over the
colon-separated fields (rightmost times one, then sixty, then
thirty-six hundred), and the three example evaluations hold. -/
theorem c6_timestamp_weighted_sum :
    (∀ (s : String) (a b c : List Char) (hrs mins secs : Int),
        splitOnChar ':' s.data = [a, b, c] →
        goAtoi a = some hrs → goAtoi b = some mins → goAtoi c = some secs →
        parseTimestamp s = .ok (3600 * hrs + 60 * mins + secs))
    ∧ (∀ (s : String) (a b : List Char) (mins secs : Int),
        splitOnChar ':' s.data = [a, b] →
        goAtoi a = some mins → goAtoi b = some secs →
        parseTimestamp s = .ok (60 * mins + secs))
    ∧ parseTimestamp "1:02:03" = .ok 3723
    ∧ parseTimestamp "02:03" = .ok 123
    ∧ (∃ e, parseTimestamp "x:03" = .failed e) := by
  refine ⟨?_, ?_, rfl, rfl, ⟨"strconv.Atoi: invalid syntax", rfl⟩⟩
  · intro s a b c hrs mins secs hs ha hb hc
    unfold parseTimestamp
    rw [hs]
    simp only [List.reverse_cons, List.reverse_nil, List.nil_append, List.cons_append,
      List.append_nil]
    simp only [tsLoop, ha, hb, hc, multipliers]
    norm_num [List.get]
    ring
  · intro s a b mins secs hs ha hb
    unfold parseTimestamp
    rw [hs]
    simp only [List.reverse_cons, List.reverse_nil, List.nil_append, List.cons_append,
      List.append_nil]
    simp only [tsLoop, ha, hb, multipliers]
    norm_num [List.get]
    ring

/-- Witness for C6's weighted-sum clauses at `"7:08"` and `"1:02:03"`. -/
theorem c6_timestamp_weighted_sum_witness :
    parseTimestamp "7:08" = .ok 428 ∧ parseTimestamp "1:02:03" = .ok 3723 := by
  constructor
  · have h := c6_timestamp_weighted_sum.2.1 "7:08" ['7'] ['0', '8'] 7 8
      (by decide) (by decide) (by decide)
    exact h.trans (by norm_num)
  · have h := c6_timestamp_weighted_sum.1 "1:02:03" ['1'] ['0', '2'] ['0', '3'] 1 2 3
      (by decide) (by decide) (by decide) (by decide)
    exact h.trans (by norm_num)

/-! ## Claim C8 -/

/-- C8: a track whose end time is at most its start time is rejected by
`processTrack` before the external tool is invoked (the launch flag is
`false`), and such a rejection adds exactly one to the failure count,
the same contribution an invocation failure adds. -/
theorem c8_time_range_rejection :
    ∀ (f : Track → Bool) (t : Track), t.endTime ≤ t.startTime →
      processTrack f t = (.timeRangeError, false)
      ∧ (∀ pre post : List Track,
          errCount f (pre ++ t :: post) = errCount f pre + errCount f post + 1)
      ∧ (∀ t' : Track, t'.startTime < t'.endTime → f t' = false →
          ∀ pre post : List Track,
            errCount f (pre ++ t' :: post) = errCount f pre + errCount f post + 1) := by
  intro f t ht
  have hpt : processTrack f t = (.timeRangeError, false) := by
    unfold processTrack
    rw [if_pos (by omega)]
  refine ⟨hpt, ?_, ?_⟩
  · intro pre post
    rw [errCount_append_cons, hpt]
    simp [isFailure]
    omega
  · intro t' h1 h2 pre post
    have hpt' : processTrack f t' = (.invocationError, true) := by
      unfold processTrack
      rw [if_neg (by omega), if_neg (by simp [h2])]
    rw [errCount_append_cons, hpt']
    simp [isFailure]
    omega

/-- Witness for C8: the all-zero track is rejected and counted. -/
theorem c8_time_range_rejection_witness :
    processTrack (fun _ => true) (startOnly 0) = (.timeRangeError, false) ∧
    errCount (fun _ => true) [startOnly 0] = 1 := by
  have h := c8_time_range_rejection (fun _ => true) (startOnly 0) (by decide)
  refine ⟨h.1, ?_⟩
  have h2 := h.2.1 [] []
  simpa [errCount] using h2

/-! ## String-joining lemmas for `buildTitle` and `buildComment` -/

theorem string_foldl_append (l : List String) (a : String) :
    l.foldl (· ++ ·) a = a ++ l.foldl (· ++ ·) "" := by
  induction l generalizing a with
  | nil => simp [List.foldl]
  | cons x xs ih =>
    simp only [List.foldl]
    rw [ih (a ++ x), ih ("" ++ x), String.empty_append, String.append_assoc]

theorem string_join_cons (a : String) (l : List String) :
    String.join (a :: l) = a ++ String.join l := by
  simp only [String.join, List.foldl]
  rw [string_foldl_append l ("" ++ a), String.empty_append]

theorem buildTitle_foldl (l : List AdditionalTrack) (init : String) :
    l.foldl (fun acc a => acc ++ " / " ++ a.title) init =
      init ++ String.join (l.map fun a => " / " ++ a.title) := by
  induction l generalizing init with
  | nil => simp [String.join]
  | cons x xs ih =>
    simp only [List.foldl, List.map]
    rw [ih, string_join_cons]
    simp [String.append_assoc]

theorem buildTitle_eq (t : Track) :
    buildTitle t = t.mainTitle ++ String.join (t.additional.map fun a => " / " ++ a.title) :=
  buildTitle_foldl t.additional t.mainTitle

theorem goJoin_go (sep : String) (l : List String) :
    ∀ a : String, String.intercalate.go a sep l = goJoin sep (a :: l) := by
  induction l with
  | nil => intro a; simp [String.intercalate.go, goJoin]
  | cons x xs ih =>
    intro a
    rw [show String.intercalate.go a sep (x :: xs) =
          String.intercalate.go (a ++ sep ++ x) sep xs from by
        simp [String.intercalate.go]]
    rw [ih (a ++ sep ++ x)]
    cases xs with
    | nil => simp [goJoin]
    | cons y ys => simp only [goJoin, String.append_assoc]

theorem goJoin_eq_intercalate (sep : String) (l : List String) :
    goJoin sep l = String.intercalate sep l := by
  cases l with
  | nil => rfl
  | cons a as => rw [String.intercalate, goJoin_go]

/-! ## Claim C9 -/

/-- C9: `buildMetadata` always attaches title, artist, album, date and
comment pairs; the title is the main title extended with the slash
joined additional titles in recorded order, the artist is the main
artist only, the comment lists the additional tracks joined with `"; "`,
and a publisher pair is attached exactly when `MainLabel` is nonempty. -/
theorem c9_metadata_contents :
    ∀ (t : Track) (album : String),
      buildMetadata t album =
        ["-metadata",
         "title=" ++ (t.mainTitle ++ String.join (t.additional.map fun a => " / " ++ a.title)),
         "-metadata", "artist=" ++ t.mainArtist,
         "-metadata", "album=" ++ album,
         "-metadata", "date=2025",
         "-metadata",
         "comment=" ++ ("Additional tracks: " ++
           String.intercalate "; "
             (t.additional.map fun a => a.artist ++ " - " ++ a.title ++ " [" ++ a.label ++ "]"))]
        ++ (if t.mainLabel = "" then [] else ["-metadata", "publisher=" ++ t.mainLabel]) := by
  intro t album
  unfold buildMetadata buildComment
  rw [buildTitle_eq, goJoin_eq_intercalate]
  rfl

/-! ## Lemmas about `tsLoop`, `lineMatch` and `tsShape` -/

theorem tsLoop_no_panic :
    ∀ (parts : List (List Char)) (i : Nat) (total : Int),
      parts.length + i ≤ 3 → tsLoop parts i total ≠ .panicked := by
  intro parts
  induction parts with
  | nil => intro i total _ h; simp [tsLoop] at h
  | cons p rest ih =>
    intro i total hlen
    have hi : i < multipliers.length := by
      simp only [List.length_cons] at hlen
      simp only [multipliers, List.length]
      omega
    intro h
    rw [tsLoop] at h
    split at h
    · simp at h
    · rw [dif_pos hi] at h
      exact ih (i + 1) _ (by simp only [List.length_cons] at hlen; omega) h

theorem lineMatch_tsShape (l ts rest lbl : List Char)
    (h : lineMatch l = some (ts, rest, lbl)) : tsShape ts = true := by
  unfold lineMatch at h
  split at h
  case h_2 => exact absurd h (by simp)
  case h_1 c cs =>
    dsimp only at h
    split at h
    case isFalse => exact absurd h (by simp)
    case isTrue hts =>
      split at h
      case h_2 => exact absurd h (by simp)
      case h_1 c' r =>
        split at h
        case isFalse => exact absurd h (by simp)
        case isTrue =>
          split at h
          case h_2 => exact absurd h (by simp)
          case h_1 m2 lbl' =>
            injection h with h1
            injection h1 with hts' _
            rw [← hts']
            exact hts

theorem tsShape_fields (ts : List Char) (h : tsShape ts = true) :
    (splitOnChar ':' ts).length = 2 ∨ (splitOnChar ':' ts).length = 3 := by
  unfold tsShape at h
  split at h
  case h_1 a b heq => left; rw [heq]; rfl
  case h_2 a b c heq => right; rw [heq]; rfl
  case h_3 => exact absurd h (by simp)

/-! ## Claim C10 -/

/-- C10: `parseTimestamp` indexes the three-element `multipliers` list by
field position.  With at most three colon-separated fields the indexing
is in bounds and the function is total; the all-numeric four-field
string `"1:2:3:4"` reaches the out-of-bounds index and panics; and every
timestamp captured by the track-start matcher has exactly two or three
fields, so a timestamp passed by `lineRe` can never panic. -/
theorem c10_multiplier_index_safety :
    (∀ ts : String, (splitOnChar ':' ts.data).length ≤ 3 →
        parseTimestamp ts ≠ .panicked)
    ∧ parseTimestamp "1:2:3:4" = .panicked
    ∧ (∀ l ts rest lbl : List Char, lineMatch l = some (ts, rest, lbl) →
        (splitOnChar ':' ts).length = 2 ∨ (splitOnChar ':' ts).length = 3)
    ∧ (∀ l ts rest lbl : List Char, lineMatch l = some (ts, rest, lbl) →
        parseTimestamp (String.mk ts) ≠ .panicked) := by
  refine ⟨?_, rfl, ?_, ?_⟩
  · intro ts hlen
    unfold parseTimestamp
    exact tsLoop_no_panic _ 0 0 (by simpa using hlen)
  · intro l ts rest lbl h
    exact tsShape_fields ts (lineMatch_tsShape l ts rest lbl h)
  · intro l ts rest lbl h
    have hf := tsShape_fields ts (lineMatch_tsShape l ts rest lbl h)
    unfold parseTimestamp
    refine tsLoop_no_panic _ 0 0 ?_
    have : (splitOnChar ':' (String.mk ts).data) = splitOnChar ':' ts := rfl
    rw [this]
    simp only [List.length_reverse]
    omega

/-- Witness for C10 at `"02:03"` and at the matched line
`"[0:00] A - B"`. -/
theorem c10_multiplier_index_safety_witness :
    parseTimestamp "02:03" ≠ GoResult.panicked ∧
    ((splitOnChar ':' ['0', ':', '0', '0']).length = 2 ∨
      (splitOnChar ':' ['0', ':', '0', '0']).length = 3) :=
  ⟨c10_multiplier_index_safety.1 "02:03" (by decide),
   c10_multiplier_index_safety.2.2.1 "[0:00] A - B".data ['0', ':', '0', '0']
     "A - B".data [] (by decide)⟩

/-! ## Step lemmas about `parseLine` -/

theorem startsWithWSlash_ne_nil (l : List Char) (h : startsWithWSlash l = true) :
    l.isEmpty = false := by
  unfold startsWithWSlash at h
  split at h
  · rfl
  · exact absurd h (by simp)

theorem startsWithWSlash_lineMatch_none (l : List Char) (h : startsWithWSlash l = true) :
    lineMatch l = none := by
  unfold startsWithWSlash at h
  split at h
  · rfl
  · exact absurd h (by simp)

theorem lineMatch_ne_nil (l ts rest lbl : List Char)
    (h : lineMatch l = some (ts, rest, lbl)) : l.isEmpty = false := by
  cases l with
  | nil => exact absurd h (by simp [lineMatch])
  | cons c cs => rfl

/-- A line whose trimmed text matches neither `lineRe` nor the `w/`
prefix (blank lines included) is skipped, leaving the state unchanged. -/
theorem parseLine_no_match_skip (st : PState) (line : String)
    (hm : lineMatch (goTrimSpace line).data = none)
    (hw : startsWithWSlash (goTrimSpace line).data = false) :
    parseLine st line = .ok st := by
  simp only [parseLine]
  by_cases he : (goTrimSpace line).data.isEmpty
  · rw [if_pos he]
  · rw [if_neg he, hm, hw]
    simp

/-- A `w/` line that fails the `wRe` shape is skipped, whatever the
state. -/
theorem parseLine_w_no_shape (st : PState) (line : String)
    (hw : startsWithWSlash (goTrimSpace line).data = true)
    (hm : wMatch (goTrimSpace line).data = none) :
    parseLine st line = .ok st := by
  simp only [parseLine]
  rw [if_neg (by rw [startsWithWSlash_ne_nil _ hw]; exact Bool.false_ne_true),
    startsWithWSlash_lineMatch_none _ hw, hw]
  cases hc : st.current with
  | none => simp
  | some cur => simp [hm]

/-- A `w/` line that matches `wRe` but whose content lacks the
`" - "` separator is a hard parse error when a track is open. -/
theorem parseLine_w_bad_shape (st : PState) (cur : Track) (line : String)
    (content lbl : List Char)
    (hc : st.current = some cur)
    (hw : startsWithWSlash (goTrimSpace line).data = true)
    (hm : wMatch (goTrimSpace line).data = some (content, lbl))
    (hs : splitOnFirst sepDashChars content = none) :
    parseLine st line = .failed ("invalid artist/title format: " ++ String.mk content) := by
  have he := startsWithWSlash_ne_nil _ hw
  have hlm := startsWithWSlash_lineMatch_none _ hw
  simp [parseLine, he, hlm, hw, hc, hm, parseArtistTitle, hs]

/-- A track-start line whose timestamp fails numeric conversion is a
hard parse error (the conversion happens before the stage-announcement
test). -/
theorem parseLine_ts_fail (st : PState) (line : String) (ts restC lbl : List Char)
    (e : String)
    (hm : lineMatch (goTrimSpace line).data = some (ts, restC, lbl))
    (ht : parseTimestamp (String.mk ts) = .failed e) :
    parseLine st line = .failed e := by
  have he := lineMatch_ne_nil _ _ _ _ hm
  simp [parseLine, he, hm, ht]

/-- A track-start line whose rest lacks the `" - "` separator and is
not a stage announcement is a hard parse error. -/
theorem parseLine_rest_bad (st : PState) (line : String) (ts restC lbl : List Char)
    (v : Int)
    (hm : lineMatch (goTrimSpace line).data = some (ts, restC, lbl))
    (ht : parseTimestamp (String.mk ts) = .ok v)
    (hos : goEndsWith restC onStageChars = false)
    (hs : splitOnFirst sepDashChars restC = none) :
    parseLine st line = .failed ("invalid artist/title format: " ++ String.mk restC) := by
  have he := lineMatch_ne_nil _ _ _ _ hm
  simp [parseLine, he, hm, ht, hos, parseArtistTitle, hs]

/-- Every successful `parseLine` step preserves the invariant that the
accumulated result is nonempty or a track is open. -/
theorem parseLine_pres (st st' : PState) (line : String)
    (h : parseLine st line = .ok st')
    (hne : st.tracks ≠ [] ∨ st.current.isSome = true) :
    st'.tracks ≠ [] ∨ st'.current.isSome = true := by
  have happ : st.tracks ++ st.current.toList ≠ [] := by
    intro hcontra
    rw [List.append_eq_nil] at hcontra
    rcases hne with h1 | h2
    · exact h1 hcontra.1
    · cases hcur : st.current with
      | none => rw [hcur] at h2; simp at h2
      | some c => rw [hcur] at hcontra; simp at hcontra
  simp only [parseLine] at h
  split at h
  · injection h with h'; rw [← h']; exact hne
  · split at h
    case h_1 ts restC lbl heq =>
      split at h
      · exact absurd h (by simp)
      · exact absurd h (by simp)
      · split at h
        · injection h with h'
          rw [← h']
          exact Or.inl happ
        · split at h
          · exact absurd h (by simp)
          · exact absurd h (by simp)
          · injection h with h'
            rw [← h']
            exact Or.inr rfl
    case h_2 heq =>
      split at h
      · split at h
        case h_1 => injection h with h'; rw [← h']; exact hne
        case h_2 cur hcur =>
          split at h
          · injection h with h'; rw [← h']; exact hne
          · split at h
            · exact absurd h (by simp)
            · exact absurd h (by simp)
            · injection h with h'
              rw [← h']
              exact Or.inr rfl
      · injection h with h'; rw [← h']; exact hne

/-- A line satisfying `opensTrack` always succeeds and leaves a track
open. -/
theorem parseLine_opens (st : PState) (line : String) (h : opensTrack line = true) :
    ∃ st' : PState, parseLine st line = .ok st' ∧ st'.current.isSome = true := by
  unfold opensTrack at h
  split at h
  case h_2 => exact absurd h (by simp)
  case h_1 ts restC lbl heq =>
    rw [Bool.and_eq_true, Bool.and_eq_true] at h
    obtain ⟨⟨hok, hos⟩, hsp⟩ := h
    obtain ⟨v, hv⟩ : ∃ v, parseTimestamp (String.mk ts) = .ok v := by
      cases hpt : parseTimestamp (String.mk ts) with
      | ok v => exact ⟨v, rfl⟩
      | failed e => rw [hpt] at hok; exact absurd hok (by simp [GoResult.isOk])
      | panicked => rw [hpt] at hok; exact absurd hok (by simp [GoResult.isOk])
    have hos' : goEndsWith restC onStageChars = false := by
      cases hgo : goEndsWith restC onStageChars with
      | false => rfl
      | true => rw [hgo] at hos; exact absurd hos (by simp)
    obtain ⟨⟨a, t⟩, hpair⟩ := Option.isSome_iff_exists.mp hsp
    refine ⟨⟨st.tracks ++ st.current.toList,
      some { startTime := v, endTime := 0, mainArtist := String.mk a,
             mainTitle := String.mk t, mainLabel := String.mk lbl,
             additional := [], outputFilename := "" }⟩, ?_, rfl⟩
    have he := lineMatch_ne_nil _ _ _ _ heq
    simp [parseLine, he, heq, hv, hos', parseArtistTitle, hpair]

/-- If the loop of `parseTracklist` succeeds and the invariant holds or
some remaining line opens a track, the final result is nonempty. -/
theorem parseLines_ne (ls : List String) :
    ∀ (st : PState) (res : List Track), parseLines ls st = .ok res →
      (st.tracks ≠ [] ∨ st.current.isSome = true ∨ ∃ l ∈ ls, opensTrack l = true) →
      res ≠ [] := by
  induction ls with
  | nil =>
    intro st res h hyp
    rw [parseLines] at h
    injection h with h'
    rw [← h']
    rcases hyp with h1 | h2 | h3
    · intro hcontra; rw [List.append_eq_nil] at hcontra; exact h1 hcontra.1
    · cases hcur : st.current with
      | none => rw [hcur] at h2; simp at h2
      | some c =>
        intro hcontra
        rw [List.append_eq_nil] at hcontra
        simp at hcontra
    · simp at h3
  | cons l ls ih =>
    intro st res h hyp
    rw [parseLines] at h
    split at h
    · exact absurd h (by simp)
    · exact absurd h (by simp)
    · rename_i st₁ heq
      refine ih st₁ res h ?_
      rcases hyp with h1 | h2 | ⟨l', hl', ho⟩
      · rcases parseLine_pres st st₁ l heq (Or.inl h1) with hp | hp
        · exact Or.inl hp
        · exact Or.inr (Or.inl hp)
      · rcases parseLine_pres st st₁ l heq (Or.inr h2) with hp | hp
        · exact Or.inl hp
        · exact Or.inr (Or.inl hp)
      · rcases List.mem_cons.mp hl' with hfst | hmem
        · obtain ⟨st₂, hps, hsome⟩ := parseLine_opens st l' ho
          rw [hfst] at hps
          have h12 : st₁ = st₂ := by
            have h' := heq.symm.trans hps
            injection h'
          rw [h12]
          exact Or.inr (Or.inl hsome)
        · exact Or.inr (Or.inr ⟨l', hmem, ho⟩)

/-! ## Claim C2 -/

/-- C2 counterexample: a tracklist consisting only of the header line
parses successfully and yields the empty track sequence, so success does
not imply a non-empty result. -/
theorem c2_parse_can_succeed_empty :
    parseTracklist ["My Set"] = .ok ([], "My Set") := by
  rfl

/-- C2 as amended: parsing can succeed with an empty sequence, but the
result is non-empty whenever at least one line after the header opens a
track (matches the track-start shape with a convertible timestamp, is
not a stage announcement, and splits as `artist - title`). -/
theorem c2_nonempty_when_some_track_opens :
    ∀ (header : String) (rest : List String) (ts : List Track) (hdr : String),
      parseTracklist (header :: rest) = .ok (ts, hdr) →
      (∃ l ∈ rest, opensTrack l = true) → ts ≠ [] := by
  intro header rest ts hdr h hex
  simp only [parseTracklist] at h
  cases hp : parseLines rest ⟨[], none⟩ with
  | panicked => rw [hp] at h; exact absurd h (by simp [GoResult.map])
  | failed e => rw [hp] at h; exact absurd h (by simp [GoResult.map])
  | ok res =>
    rw [hp] at h
    simp only [GoResult.map] at h
    injection h with h'
    have hres : res = ts := congrArg Prod.fst h'
    rw [← hres]
    exact parseLines_ne rest ⟨[], none⟩ res hp (Or.inr (Or.inr hex))

/-- Witness for the amended C2: one opening line produces a non-empty
result. -/
theorem c2_nonempty_when_some_track_opens_witness :
    ([trackAB] : List Track) ≠ [] :=
  c2_nonempty_when_some_track_opens "My Set" ["[0:00] A - B"] [trackAB] "My Set"
    (by rfl) ⟨"[0:00] A - B", by simp, by decide⟩

/-! ## Claim C3 -/

/-- C3 counterexample: a continuation line matching the `w/` shape whose
remainder lacks the `" - "` separator makes the whole parse fail, so it
is not silently dropped. -/
theorem c3_malformed_continuation_hard_error :
    parseTracklist ["H", "[0:00] A - B", "w/ NoSeparator"] =
      .failed "invalid artist/title format: NoSeparator" := by
  rfl

/-- C3 as amended: a continuation line that fails the `wRe` shape
(nothing after `w/`, or no whitespace after it) is silently dropped with
the state unchanged, but a continuation line that matches the shape and
whose content lacks the `" - "` separator is a hard parse error when a
track is open. -/
theorem c3_continuation_amended :
    (∀ (st : PState) (line : String),
        startsWithWSlash (goTrimSpace line).data = true →
        wMatch (goTrimSpace line).data = none →
        parseLine st line = .ok st)
    ∧ (∀ (st : PState) (cur : Track) (line : String) (content lbl : List Char),
        st.current = some cur →
        startsWithWSlash (goTrimSpace line).data = true →
        wMatch (goTrimSpace line).data = some (content, lbl) →
        splitOnFirst sepDashChars content = none →
        parseLine st line = .failed ("invalid artist/title format: " ++ String.mk content)) :=
  ⟨fun st line hw hm => parseLine_w_no_shape st line hw hm,
   fun st cur line content lbl hc hw hm hs =>
     parseLine_w_bad_shape st cur line content lbl hc hw hm hs⟩

/-- Witness for the amended C3: `"w/x"` is skipped, `"w/ NoSeparator"`
fails hard. -/
theorem c3_continuation_amended_witness :
    parseLine ⟨[], some trackAB⟩ "w/x" = .ok ⟨[], some trackAB⟩ ∧
    parseLine ⟨[], some trackAB⟩ "w/ NoSeparator" =
      .failed "invalid artist/title format: NoSeparator" :=
  ⟨c3_continuation_amended.1 ⟨[], some trackAB⟩ "w/x" (by decide) (by decide),
   c3_continuation_amended.2 ⟨[], some trackAB⟩ trackAB "w/ NoSeparator"
     "NoSeparator".data [] rfl (by decide) (by decide) (by decide)⟩

/-! ## Claim C4 -/

/-- C4 counterexample: a line whose bracketed timestamp contains a
non-numeric character does not match the track-start shape and is
silently ignored, so parsing succeeds instead of failing hard. -/
theorem c4_nonnumeric_timestamp_silently_ignored :
    parseTracklist ["H", "[x:03] A - B"] = .ok ([], "H") := by
  rfl

/-- C4 as amended: a line matching neither line shape is silently
ignored; but a track-start line matching `lineRe` fails the whole parse
when its timestamp fails numeric conversion (possible only through an
empty middle field such as `[1::3]`), and likewise when its rest is not
a stage announcement and lacks the `" - "` separator. -/
theorem c4_track_start_amended :
    (∀ (st : PState) (line : String),
        lineMatch (goTrimSpace line).data = none →
        startsWithWSlash (goTrimSpace line).data = false →
        parseLine st line = .ok st)
    ∧ (∀ (st : PState) (line : String) (ts restC lbl : List Char) (e : String),
        lineMatch (goTrimSpace line).data = some (ts, restC, lbl) →
        parseTimestamp (String.mk ts) = .failed e →
        parseLine st line = .failed e)
    ∧ (∀ (st : PState) (line : String) (ts restC lbl : List Char) (v : Int),
        lineMatch (goTrimSpace line).data = some (ts, restC, lbl) →
        parseTimestamp (String.mk ts) = .ok v →
        goEndsWith restC onStageChars = false →
        splitOnFirst sepDashChars restC = none →
        parseLine st line = .failed ("invalid artist/title format: " ++ String.mk restC)) :=
  ⟨fun st line hm hw => parseLine_no_match_skip st line hm hw,
   fun st line ts restC lbl e hm ht => parseLine_ts_fail st line ts restC lbl e hm ht,
   fun st line ts restC lbl v hm ht hos hs =>
     parseLine_rest_bad st line ts restC lbl v hm ht hos hs⟩

/-- Witness for the amended C4: `"[x:03] A - B"` is skipped,
`"[1::3] A - B"` and `"[0:00] NoSeparator"` fail hard. -/
theorem c4_track_start_amended_witness :
    parseLine ⟨[], none⟩ "[x:03] A - B" = .ok ⟨[], none⟩ ∧
    parseLine ⟨[], none⟩ "[1::3] A - B" = .failed "strconv.Atoi: invalid syntax" ∧
    parseLine ⟨[], none⟩ "[0:00] NoSeparator" =
      .failed "invalid artist/title format: NoSeparator" :=
  ⟨c4_track_start_amended.1 ⟨[], none⟩ "[x:03] A - B" (by decide) (by decide),
   c4_track_start_amended.2.1 ⟨[], none⟩ "[1::3] A - B" "1::3".data "A - B".data []
     "strconv.Atoi: invalid syntax" (by decide) (by decide),
   c4_track_start_amended.2.2 ⟨[], none⟩ "[0:00] NoSeparator" "0:00".data
     "NoSeparator".data [] 0 (by decide) (by decide) (by decide) (by decide)⟩

/-! ## Decimal-formatting lemmas for `createFilenames` -/

theorem digitChar_isDigit (n : Nat) : isDigitChar (digitChar n) = true := by
  unfold digitChar
  split <;> decide

theorem digitChar_val (n : Nat) (h : n < 10) : (digitChar n).toNat - 48 = n := by
  interval_cases n <;> rfl

theorem digitsVal_append (l : List Char) (c : Char) :
    digitsVal (l ++ [c]) = digitsVal l * 10 + (c.toNat - 48) := by
  unfold digitsVal
  rw [List.foldl_append]
  rfl

theorem digitsVal_cons_zero (l : List Char) : digitsVal ('0' :: l) = digitsVal l := rfl

theorem natDigsAux_val : ∀ (fuel n : Nat), n < fuel → digitsVal (natDigsAux fuel n) = n := by
  intro fuel
  induction fuel with
  | zero => intro n h; omega
  | succ fuel ih =>
    intro n h
    rw [natDigsAux]
    by_cases h10 : n < 10
    · rw [if_pos h10]
      have h0 : digitsVal [digitChar n] = 0 * 10 + ((digitChar n).toNat - 48) := rfl
      rw [h0, digitChar_val n h10]
      omega
    · rw [if_neg h10]
      rw [digitsVal_append]
      have hdiv : n / 10 < fuel := by
        have := Nat.div_lt_self (by omega : 0 < n) (by omega : 1 < 10)
        omega
      rw [ih (n / 10) hdiv, digitChar_val (n % 10) (Nat.mod_lt n (by omega))]
      omega

theorem natDigs_val (n : Nat) : digitsVal (natDigs n) = n :=
  natDigsAux_val (n + 1) n (Nat.lt_succ_self n)

theorem natDigsAux_digits : ∀ (fuel n : Nat), allDigits (natDigsAux fuel n) = true := by
  intro fuel
  induction fuel with
  | zero => intro n; rfl
  | succ fuel ih =>
    intro n
    rw [natDigsAux]
    by_cases h10 : n < 10
    · rw [if_pos h10]
      simp [allDigits, digitChar_isDigit]
    · rw [if_neg h10]
      have h1 := ih (n / 10)
      simp only [allDigits] at h1 ⊢
      rw [List.all_append, h1]
      simp [digitChar_isDigit]

theorem fmt02dChars_val (n : Nat) : digitsVal (fmt02dChars n) = n := by
  unfold fmt02dChars
  by_cases h : n < 10
  · rw [if_pos h, natDigs, digitsVal_cons_zero]
    exact natDigsAux_val (n + 1) n (Nat.lt_succ_self n)
  · rw [if_neg h]
    exact natDigs_val n

theorem fmt02dChars_digits (n : Nat) : allDigits (fmt02dChars n) = true := by
  unfold fmt02dChars
  by_cases h : n < 10
  · rw [if_pos h, natDigs]
    have h1 := natDigsAux_digits (n + 1) n
    simp only [allDigits] at h1 ⊢
    rw [List.all_cons, h1]
    decide
  · rw [if_neg h]
    exact natDigsAux_digits (n + 1) n

theorem fmt02dChars_inj (p q : Nat) (h : fmt02dChars p = fmt02dChars q) : p = q := by
  have h' := congrArg digitsVal h
  rwa [fmt02dChars_val, fmt02dChars_val] at h'

/-- Two all-digit blocks followed by a space and anything must be the
same block: the space cannot be part of either block. -/
theorem digits_space_cancel :
    ∀ (d1 d2 r1 r2 : List Char), allDigits d1 = true → allDigits d2 = true →
      d1 ++ ' ' :: r1 = d2 ++ ' ' :: r2 → d1 = d2 := by
  intro d1
  induction d1 with
  | nil =>
    intro d2 r1 r2 _ hd2 heq
    cases d2 with
    | nil => rfl
    | cons c cs =>
      simp only [List.nil_append, List.cons_append] at heq
      injection heq with h1 _
      rw [← h1] at hd2
      simp [allDigits, isDigitChar] at hd2
  | cons c cs ih =>
    intro d2 r1 r2 hd1 hd2 heq
    cases d2 with
    | nil =>
      simp only [List.cons_append, List.nil_append] at heq
      injection heq with h1 _
      rw [h1] at hd1
      simp [allDigits, isDigitChar] at hd1
    | cons c' cs' =>
      simp only [List.cons_append] at heq
      injection heq with h1 h2
      have hcs : cs = cs' := by
        refine ih cs' r1 r2 ?_ ?_ h2
        · simp only [allDigits, List.all_cons, Bool.and_eq_true] at hd1
          exact hd1.2
        · simp only [allDigits, List.all_cons, Bool.and_eq_true] at hd2
          exact hd2.2
      rw [h1, hcs]

/-- The position prefix determines the position: equal filenames force
equal one-based positions. -/
theorem trackFilename_position_inj (p q : Nat) (a1 t1 e1 a2 t2 e2 : String)
    (h : trackFilename p a1 t1 e1 = trackFilename q a2 t2 e2) : p = q := by
  unfold trackFilename at h
  have hd := congrArg String.data h
  simp only [String.data_append, fmt02d, List.append_assoc] at hd
  simp only [List.cons_append, List.nil_append] at hd
  simp only [List.cons.injEq, true_and] at hd
  exact fmt02dChars_inj p q
    (digits_space_cancel _ _ _ _ (fmt02dChars_digits p) (fmt02dChars_digits q) hd)

/-! ## Lemmas about `createFilenames` -/

theorem createFilenamesAux_length (ext : String) :
    ∀ (ts : List Track) (i : Nat), (createFilenamesAux i ext ts).length = ts.length := by
  intro ts
  induction ts with
  | nil => intro i; rfl
  | cons t rest ih =>
    intro i
    simp only [createFilenamesAux, List.length_cons, ih]

theorem createFilenamesAux_get (ext : String) :
    ∀ (ts : List Track) (k i : Nat) (h : i < ts.length)
      (h' : i < (createFilenamesAux k ext ts).length),
      (createFilenamesAux k ext ts).get ⟨i, h'⟩ =
        (ts.get ⟨i, h⟩).withName
          (trackFilename (k + i + 1) ((ts.get ⟨i, h⟩).mainArtist)
            ((ts.get ⟨i, h⟩).mainTitle) ext) := by
  intro ts
  induction ts with
  | nil => intro k i h; simp at h
  | cons t rest ih =>
    intro k i h h'
    cases i with
    | zero => rfl
    | succ j =>
      have hj : j < rest.length := by simpa using h
      have hj' : j < (createFilenamesAux (k + 1) ext rest).length := by
        rw [createFilenamesAux_length]
        exact hj
      exact (ih (k + 1) j hj hj').trans
        (by rw [show k + 1 + j + 1 = k + (j + 1) + 1 from by omega]; rfl)

theorem createFilenames_length (ts : List Track) (ext : String) :
    (createFilenames ts ext).length = ts.length :=
  createFilenamesAux_length ext ts 0

theorem createFilenames_get (ts : List Track) (ext : String) (i : Nat)
    (h : i < ts.length) (h' : i < (createFilenames ts ext).length) :
    (createFilenames ts ext).get ⟨i, h'⟩ =
      (ts.get ⟨i, h⟩).withName
        (trackFilename (i + 1) ((ts.get ⟨i, h⟩).mainArtist)
          ((ts.get ⟨i, h⟩).mainTitle) ext) :=
  (createFilenamesAux_get ext ts 0 i h h').trans
    (by rw [show 0 + i + 1 = i + 1 from by omega])

theorem sanitize_filter (s : String) :
    (sanitizeFilename s).data = s.data.filter fun c => !(decide (c ∈ badChars)) := by
  show s.data.filterMap _ = _
  induction s.data with
  | nil => rfl
  | cons c cs ih =>
    by_cases hc : c ∈ badChars
    · simp [List.filterMap_cons, List.filter_cons, hc, ih]
    · simp [List.filterMap_cons, List.filter_cons, hc, ih]

/-! ## Claim C7 -/

/-- C7: the filename of the track at one-based position `i + 1` is the
zero-padded position (minimum width two), `" - "`, the sanitized main
artist, `" - "`, the sanitized main title, then the extension, under the
`output` directory; sanitization deletes the reserved characters
(the result is a sublist of the input, never a replacement); and the
filenames of distinct positions are distinct.  The name depends only on
the track's position in the parsed sequence and its own fields, fixed
before any concurrent processing starts. -/
theorem c7_filename_assignment :
    (∀ (tracks : List Track) (ext : String) (i : Nat) (h : i < tracks.length)
        (h' : i < (createFilenames tracks ext).length),
        ((createFilenames tracks ext).get ⟨i, h'⟩).outputFilename =
          "output/" ++ fmt02d (i + 1) ++ " - " ++
            sanitizeFilename ((tracks.get ⟨i, h⟩).mainArtist) ++ " - " ++
            sanitizeFilename ((tracks.get ⟨i, h⟩).mainTitle) ++ ext)
    ∧ (∀ s : String,
        (sanitizeFilename s).data = s.data.filter (fun c => !(decide (c ∈ badChars)))
        ∧ (sanitizeFilename s).data.Sublist s.data)
    ∧ (∀ (tracks : List Track) (ext : String) (i j : Nat)
        (hi : i < (createFilenames tracks ext).length)
        (hj : j < (createFilenames tracks ext).length),
        i ≠ j →
        ((createFilenames tracks ext).get ⟨i, hi⟩).outputFilename ≠
          ((createFilenames tracks ext).get ⟨j, hj⟩).outputFilename) := by
  refine ⟨?_, ?_, ?_⟩
  · intro tracks ext i h h'
    rw [createFilenames_get tracks ext i h h']
    rfl
  · intro s
    refine ⟨sanitize_filter s, ?_⟩
    rw [sanitize_filter s]
    exact List.filter_sublist s.data
  · intro tracks ext i j hi hj hne hcontra
    have hi2 : i < tracks.length := by rwa [createFilenames_length] at hi
    have hj2 : j < tracks.length := by rwa [createFilenames_length] at hj
    rw [createFilenames_get tracks ext i hi2 hi,
      createFilenames_get tracks ext j hj2 hj] at hcontra
    have := trackFilename_position_inj (i + 1) (j + 1) _ _ _ _ _ _ hcontra
    omega

/-- Witness for C7 on two tracks with identical artist and title: the
computed names and their distinctness. -/
theorem c7_filename_assignment_witness :
    ((createFilenames [trackAB, trackAB] ".mp3").get ⟨0, by decide⟩).outputFilename =
      "output/01 - A - B.mp3" ∧
    ((createFilenames [trackAB, trackAB] ".mp3").get ⟨0, by decide⟩).outputFilename ≠
      ((createFilenames [trackAB, trackAB] ".mp3").get ⟨1, by decide⟩).outputFilename ∧
    (sanitizeFilename "A<b>|c?").data = "Abc".data :=
  ⟨(c7_filename_assignment.1 [trackAB, trackAB] ".mp3" 0 (by decide) (by decide)).trans rfl,
   c7_filename_assignment.2.2 [trackAB, trackAB] ".mp3" 0 1 (by decide) (by decide)
     (by decide),
   ((c7_filename_assignment.2.1 "A<b>|c?").1).trans (by decide)⟩

end SongSplitter
